import Mathlib

/-!
Verification development for `vsix_downloader.py`: a tool that resolves a
marketplace extension together with its transitive dependencies, linearizes
them into a dependency-first download order, and fetches each artifact with
retry and size verification.

The Python source is shallowly embedded below:
* the `Extension` class becomes an inductive type of the same name (its `dependencies`
  list of child `Extension` objects becomes a nested `List Extension` field);
* in-place mutation of the `order` / `visited` arguments becomes explicit
  state passing (each function returns the updated accumulators alongside
  its Python return value);
* network I/O (`requests.get`, the marketplace query) becomes oracle
  functions passed as parameters;
* Python exceptions become `Except String` results;
* the filesystem state touched by the downloader (temp file, final file)
  becomes an explicit record threaded through the retry loop.
-/

/-- Embedding of the Python `Extension` class (vsix_downloader.py lines
72-83).  Fields in order: `publisher`, `extension_id`, `version`,
`download_url`, `dependencies`.  `version` and `download_url` are `Option`
because the Python constructor defaults them to `None`; they are filled in
by `build_dependency_tree` after a successful marketplace query. -/
inductive Extension : Type where
  | mk (publisher extension_id : String)
       (version download_url : Option String)
       (dependencies : List Extension) : Extension

def Extension.publisher : Extension → String
  | .mk p _ _ _ _ => p

def Extension.extension_id : Extension → String
  | .mk _ i _ _ _ => i

def Extension.version : Extension → Option String
  | .mk _ _ v _ _ => v

def Extension.download_url : Extension → Option String
  | .mk _ _ _ u _ => u

def Extension.dependencies : Extension → List Extension
  | .mk _ _ _ _ d => d

/-- The `self.key = f'{publisher}.{extension_id}'` field of the Python
`Extension` class. -/
def Extension.key (e : Extension) : String := e.publisher ++ "." ++ e.extension_id

/-- A node is fully resolved when `build_dependency_tree` has set both its
`version` and `download_url` (the stub returned for an already-visited key
has both still `None`). -/
def Extension.isFull (e : Extension) : Bool := e.version.isSome && e.download_url.isSome

mutual

/-- Embedding of Python `get_download_order(extension, order, visited)`
(vsix_downloader.py lines 165-184).  The Python function mutates `order`
and `visited` in place and returns either `order` or (bare `return`)
`None`; the embedding returns the triple
`(python return value, final order, final visited)`.  The Python `set` of
visited keys is modelled as a list with membership semantics. -/
def get_download_order : Extension → List Extension → List String → Option (List Extension) × List Extension × List String
  | Extension.mk p i v u deps, order, visited =>
    let key := p ++ "." ++ i
    if key ∈ visited then
      (none, order, visited)
    else
      let r := get_download_order_deps deps order visited
      if key ∈ r.2 then
        (some r.1, r.1, r.2)
      else
        (some (r.1 ++ [Extension.mk p i v u deps]), r.1 ++ [Extension.mk p i v u deps], r.2 ++ [key])
  termination_by structural e => e

/-- The `for dep in extension.dependencies: get_download_order(dep, order,
visited)` loop of the Python function, threading the mutated accumulators
left to right. -/
def get_download_order_deps : List Extension → List Extension → List String → List Extension × List String
  | [], order, visited => (order, visited)
  | d :: ds, order, visited =>
    let r := get_download_order d order visited
    get_download_order_deps ds r.2.1 r.2.2
  termination_by structural l => l

end

/-- Splitting a character list at every occurrence of the separator, with
Python `str.split` semantics: `n` separators give `n + 1` groups, so
`"a.x"` gives `["a", "x"]`, `""` gives `[""]` and `".."` gives
`["", "", ""]`. -/
def splitOnChar (c : Char) : List Char → List (List Char)
  | [] => [[]]
  | x :: xs =>
    let r := splitOnChar c xs
    if x = c then [] :: r
    else
      match r with
      | [] => [[x]]
      | g :: gs => (x :: g) :: gs

/-- Python `dep.split('.')` (vsix_downloader.py line 157), character by
character so the kernel can evaluate it. -/
def pySplitDot (s : String) : List String :=
  (splitOnChar '.' s.data).map String.mk

/-- Python `str.lower()` as used on the ASCII platform tags
(vsix_downloader.py line 113), character by character so the kernel can
evaluate it. -/
def pyLower (s : String) : String :=
  String.mk (s.data.map Char.toLower)

/-- One entry of a marketplace version's `files` list: an
`{assetType, source}` pair. -/
structure VersionFile where
  assetType : String
  source : String
deriving DecidableEq

/-- A manifest JSON document, holding the optional `extensionDependencies`
array of dotted identifier strings (spec section 6).  `none` for the field
models a manifest without that key, in which case Python's
`manifest.get('extensionDependencies', [])` yields `[]` (a JSON `{}`
manifest, falsy in Python, also yields `[]`, matching the `none` field). -/
structure Manifest where
  extensionDependencies : Option (List String)
deriving DecidableEq

/-- Oracle for `requests.get(file['source'])` followed by
`response.json()` inside `get_extension_manifest`: maps a manifest asset
URL to the parsed document, or `none` when the fetch raises or the status
is not 2xx or the body fails to parse (all cases the Python
`except Exception: return None` collapses together). -/
def ManifestNet : Type := String → Option Manifest

/-- One entry of `extension['versions']` as consumed by the code:
`targetPlatform` and `version` are read with `.get` (so they may be
absent), `files` is indexed directly. -/
structure MarketVersion where
  targetPlatform : Option String
  version : Option String
  files : List VersionFile
deriving DecidableEq

/-- The `results[0].extensions[0]` JSON shape of a marketplace query
response (spec section 6). -/
structure MarketExtension where
  versions : List MarketVersion
deriving DecidableEq

structure QueryResult where
  extensions : List MarketExtension
deriving DecidableEq

structure ExtensionInfo where
  results : List QueryResult
deriving DecidableEq

/-- Embedding of Python `get_extension_manifest(version)`
(vsix_downloader.py lines 85-95): scan `version['files']` for the first
manifest asset and fetch it; any fetch/parse failure, and absence of a
manifest asset, give `None`. -/
def get_extension_manifest (net : ManifestNet) (version : MarketVersion) : Option Manifest :=
  match version.files.find? (fun f => f.assetType == "Microsoft.VisualStudio.Code.Manifest") with
  | some f => net f.source
  | none => none

/-- Embedding of Python `get_extension_dependencies(manifest)`
(vsix_downloader.py lines 97-101). -/
def get_extension_dependencies (manifest : Option Manifest) : List String :=
  match manifest with
  | none => []
  | some m => m.extensionDependencies.getD []

/-- The `for version in versions` loop of `get_download_info`
(vsix_downloader.py lines 111-129): find the first version whose
`targetPlatform` (defaulted to the empty string) case-insensitively equals
the requested platform AND that carries a VSIX package asset; fetch that
version's manifest for dependencies.  Falling off the end of the list
raises `ValueError(f'No package found for platform: ...')`. -/
def get_download_info_versions (net : ManifestNet) (target_platform : String) :
    List MarketVersion → Except String (String × Option String × List String)
  | [] => .error ("No package found for platform: " ++ target_platform)
  | v :: vs =>
    if pyLower (v.targetPlatform.getD "") == pyLower target_platform then
      let version_str := v.version
      let manifest := get_extension_manifest net v
      let dependencies := get_extension_dependencies manifest
      match v.files.find? (fun f => f.assetType == "Microsoft.VisualStudio.Services.VSIXPackage") with
      | some f => .ok (f.source, version_str, dependencies)
      | none => get_download_info_versions net target_platform vs
    else
      get_download_info_versions net target_platform vs

/-- Embedding of Python `get_download_info(extension_info, target_platform)`
(vsix_downloader.py lines 103-131).  The `results[0]` / `extensions[0]`
indexing raises `IndexError` on an empty list, which the function converts
to `ValueError('Failed to parse extension info: ...')`. -/
def get_download_info (net : ManifestNet) (extension_info : ExtensionInfo)
    (target_platform : String) : Except String (String × Option String × List String) :=
  match extension_info.results.head? with
  | none => .error "Failed to parse extension info: list index out of range"
  | some r =>
    match r.extensions.head? with
    | none => .error "Failed to parse extension info: list index out of range"
    | some ext => get_download_info_versions net target_platform ext.versions

/-- Oracle boundary for `build_dependency_tree`'s network activity: the
composition of `get_extension_info(publisher, extension_id)` (a marketplace
POST) with `get_download_info(...)` for the fixed target platform.  An
`Except.error` models any exception raised by that pair of calls.  The
counterexamples below instantiate it with `get_download_info` applied to
concrete `ExtensionInfo` data. -/
def Registry : Type := String → String → Except String (String × Option String × List String)

/-- The `for dep in dependencies` loop of `build_dependency_tree`
(vsix_downloader.py lines 153-161), parameterized by the builder for the
next recursion level: split each declared dependency on dots (any string
that does not split into exactly two components raises `ValueError`,
caught and skipped with a warning), recursively build it, and append it on
success; a failed child build is caught, reported and skipped, but its
additions to `visited` persist. -/
def build_dependency_tree_deps
    (go : Extension → List String → Except String Extension × List String) :
    List String → List String → List Extension × List String
  | [], visited => ([], visited)
  | dep :: ds, visited =>
    match pySplitDot dep with
    | [dp, di] =>
      match go (Extension.mk dp di none none []) visited with
      | (.ok c, v1) =>
        let r := build_dependency_tree_deps go ds v1
        (c :: r.1, r.2)
      | (.error _, v1) =>
        let r := build_dependency_tree_deps go ds v1
        (r.1, r.2)
    | _ => build_dependency_tree_deps go ds visited

/-- Embedding of Python `build_dependency_tree(extension, target_platform,
visited)` (vsix_downloader.py lines 133-163).  Returns the Python result
(`Except` models an uncaught exception) together with the final visited
set, which the Python code mutates in place even on the failing paths.
`fuel` bounds the recursion depth, as Python's interpreter stack does; a
run that exhausts it returns an error (Python's `RecursionError`, itself
an `Exception` and hence caught and skipped when it happens under a
dependency rather than at the root). -/
def build_dependency_tree (reg : Registry) :
    Nat → Extension → List String → Except String Extension × List String
  | 0, _, visited => (.error "maximum recursion depth exceeded", visited)
  | fuel + 1, Extension.mk p i v u deps, visited =>
    let key := p ++ "." ++ i
    if key ∈ visited then
      (.ok (Extension.mk p i v u deps), visited)
    else
      let visited1 := visited ++ [key]
      match reg p i with
      | .error msg => (.error msg, visited1)
      | .ok (download_url, version, dependencies) =>
        let r := build_dependency_tree_deps
          (fun e vs => build_dependency_tree reg fuel e vs) dependencies visited1
        (.ok (Extension.mk p i version (some download_url) (deps ++ r.1)), r.2)

/-- Outcome of one attempt of the `download_with_retry` loop, as seen at
the oracle boundary of `requests.get(url, stream=True)` and the chunk
stream.  `fail msg streamed` models an exception anywhere in the `try`
block (connection error, `raise_for_status` on a non-2xx status, or a
stream error while writing the temp file): `streamed = none` means the
exception occurred before the local `temp_path` was assigned at line 194
(`requests.get`, `raise_for_status`, or the content-length parse),
`streamed = some n` means the temp file was truncated and `n` bytes were
written before the error.  `body contentLength bytes` models a stream that ended normally:
the declared `content-length` header (absent = `none`) and the byte count
written to the temp file. -/
inductive AttemptOutcome : Type where
  | fail (msg : String) (streamed : Option Nat)
  | body (contentLength : Option Nat) (bytes : Nat)
deriving DecidableEq

/-- Observable filesystem and side-effect state of one
`download_with_retry` call: size of the `.tmp` sibling file (if present),
size of the file at the final output path (if present), number of
`time.sleep(1)` backoff calls taken, number of `requests.get` network
calls made, and whether the local variable `temp_path` has been assigned
yet.  `temp_path` is assigned at vsix_downloader.py line 194, after
`requests.get` and `raise_for_status`, and the assignment persists across
attempts within one call; the final attempt's cleanup
`if os.path.exists(temp_path)` reads it, raising `UnboundLocalError` when
no attempt ever reached the assignment. -/
structure DLState where
  temp : Option Nat
  final : Option Nat
  sleeps : Nat
  netCalls : Nat
  tempPathSet : Bool
deriving DecidableEq

/-- How a `download_with_retry` call ends: `success` is Python
`return True`, `exhausted` is falling off the attempt loop (`return
False`), `raised msg` is the final attempt's exception propagating out of
the `raise` in the `except` branch. -/
inductive DLResult : Type where
  | success
  | exhausted
  | raised (msg : String)
deriving DecidableEq

/-- One iteration of the `for attempt in range(max_retries)` loop of
`download_with_retry` (vsix_downloader.py lines 188-222).  On a completed
stream, `total_size = int(response.headers.get('content-length', 0))` (an
absent header becomes 0) is compared with the temp file size: equality
renames the temp file onto the output path and returns `True`; inequality
leaves the temp file in place and continues.  On an exception, a non-final
attempt sleeps one second and continues; the final attempt runs
`if os.path.exists(temp_path): os.remove(temp_path)` and re-raises — but
`temp_path` is a local assigned only at line 194, after `requests.get`
and `raise_for_status`, so when no attempt of this call ever reached that
assignment (`tempPathSet` still false, every outcome so far a `fail` with
`streamed = none`) the cleanup line itself raises `UnboundLocalError`
instead: nothing is removed (a stale pre-existing temp file survives) and
the propagated exception is the `UnboundLocalError`, not the original
transport error.  `none` as the second component means the loop proceeds
to the next attempt. -/
def download_attempt (st : DLState) (out : AttemptOutcome) (isLast : Bool) :
    DLState × Option DLResult :=
  let st0 := { st with netCalls := st.netCalls + 1 }
  match out with
  | .body contentLength bytes =>
    let total_size := contentLength.getD 0
    let st1 := { st0 with temp := some bytes, tempPathSet := true }
    if bytes == total_size then
      ({ st1 with temp := none, final := some bytes }, some .success)
    else
      (st1, none)
  | .fail msg streamed =>
    let st1 := { st0 with
                 temp := match streamed with
                         | some n => some n
                         | none => st0.temp,
                 tempPathSet := st0.tempPathSet || streamed.isSome }
    if isLast then
      if st1.tempPathSet then
        ({ st1 with temp := none }, some (.raised msg))
      else
        (st1, some (.raised
          "UnboundLocalError: local variable temp_path referenced before assignment"))
    else
      ({ st1 with sleeps := st1.sleeps + 1 }, none)

/-- The attempt loop of `download_with_retry`: `remaining` attempts left,
`idx` the current attempt index into the oracle.  When the loop ends
without success the function returns `False` (`exhausted`). -/
def download_retry_loop (attempts : Nat → AttemptOutcome) :
    Nat → Nat → DLState → DLState × DLResult
  | 0, _, st => (st, .exhausted)
  | remaining + 1, idx, st =>
    match download_attempt st (attempts idx) (remaining == 0) with
    | (st1, some r) => (st1, r)
    | (st1, none) => download_retry_loop attempts remaining (idx + 1) st1

/-- Embedding of Python `download_with_retry(url, output_path, filename,
max_retries=3)` (vsix_downloader.py lines 186-224), over the attempt
oracle; `st` is the filesystem state on entry (a stale temp file may
pre-exist). -/
def download_with_retry (attempts : Nat → AttemptOutcome) (max_retries : Nat)
    (st : DLState) : DLState × DLResult :=
  download_retry_loop attempts max_retries 0 st

/-- Python `str()` of an `Option String` field, as used by the f-string
building the output filename (`str(None) = "None"`). -/
def pyStr : Option String → String
  | some s => s
  | none => "None"

/-- The `f'{index:02d}'` zero-padded position counter. -/
def fmt02d (n : Nat) : String :=
  if n < 10 then "0" ++ toString n else toString n

/-- The output filename
`f'{index:02d}-{publisher}-{extension_id}-{version}.vsix'` built by
`download_extension` (vsix_downloader.py line 232). -/
def vsix_filename (index : Nat) (e : Extension) : String :=
  fmt02d index ++ "-" ++ e.publisher ++ "-" ++ e.extension_id ++ "-" ++ pyStr e.version ++ ".vsix"

/-- Embedding of Python `download_extension(extension, index, total,
output_dir)` (vsix_downloader.py lines 226-246).  `preFinal` / `preTemp`
are the sizes of a pre-existing file at the output path and of a stale
temp sibling (`none` = absent).  If the output path already exists the
function returns it immediately, touching nothing and making no network
call; otherwise it runs `download_with_retry` with 3 attempts, and a
`False` result becomes `raise Exception('Download failed after all
retries')`.  `total` is only used in a progress print. -/
def download_extension (attempts : Nat → AttemptOutcome) (preFinal preTemp : Option Nat)
    (e : Extension) (index total : Nat) (output_dir : String) :
    Except String String × DLState :=
  let filename := vsix_filename index e
  let output_path := output_dir ++ "/" ++ filename
  match preFinal with
  | some sz => (.ok output_path, ⟨preTemp, some sz, 0, 0, false⟩)
  | none =>
    match download_with_retry attempts 3 ⟨preTemp, none, 0, 0, false⟩ with
    | (st, .success) => (.ok output_path, st)
    | (st, .exhausted) => (.error "Download failed after all retries", st)
    | (st, .raised msg) => (.error msg, st)

/-- Embedding of the per-item download loop in `main`
(vsix_downloader.py lines 302-308): each item's `download_extension` call
sits in its own `try`/`except` which prints
`f'Error downloading {ext.key}: {str(e)}'` and continues, so no exception
escapes the loop.  `fetch` abstracts the `download_extension` call for one
item; `files` accumulates `downloaded_files`, `errs` the recorded error
prints.  The `Except` result models whether an exception propagates out of
the loop to `main`'s outer handler (it never does). -/
def main_download_loop (fetch : Extension → Except String String) :
    List Extension → List String → List String → Except String (List String × List String)
  | [], files, errs => .ok (files, errs)
  | e :: es, files, errs =>
    match fetch e with
    | .ok p => main_download_loop fetch es (files ++ [p]) errs
    | .error m =>
      main_download_loop fetch es files (errs ++ ["Error downloading " ++ e.key ++ ": " ++ m])

/-- The process exit status of `main` (vsix_downloader.py lines 274-323):
`sys.exit(1)` runs only when an exception reaches the outer `except`;
otherwise `main` returns normally and the process exits 0. -/
def exit_code {α : Type} : Except String α → Nat
  | .ok _ => 0
  | .error _ => 1

mutual

/-- The fully resolved nodes of a tree in depth-first post-order: children
first (in stored order), then the node itself when it is resolved.  Under
`acyclic_resolved` below, this is exactly the sequence `get_download_order`
produces. -/
def post_fulls : Extension → List Extension
  | .mk p i v u deps =>
    if v.isSome && u.isSome then post_fulls_forest deps ++ [Extension.mk p i v u deps]
    else []
  termination_by structural e => e

def post_fulls_forest : List Extension → List Extension
  | [] => []
  | t :: ts => post_fulls t ++ post_fulls_forest ts
  termination_by structural l => l

end

/-- Keys of the fully resolved nodes of a forest, in post-order. -/
def full_keys (ts : List Extension) : List String :=
  (post_fulls_forest ts).map Extension.key

mutual

/-- All nodes of a tree, in depth-first preorder. -/
def nodes_tree : Extension → List Extension
  | .mk p i v u deps => Extension.mk p i v u deps :: nodes_forest deps
  termination_by structural e => e

def nodes_forest : List Extension → List Extension
  | [] => []
  | t :: ts => nodes_tree t ++ nodes_forest ts
  termination_by structural l => l

end

/-- All keys occurring in a tree (with repetition). -/
def keys_tree (t : Extension) : List String :=
  (nodes_tree t).map Extension.key

mutual

/-- A built dependency tree is acyclic and fully resolved, relative to a
set `V` of keys already sequenced to the left: every resolved node's key
is new (not in `V` and not resolved again below it), every stub (a node
with `version`/`download_url` unset, as `build_dependency_tree` returns
for an already-visited key) is a leaf whose key was already resolved
strictly earlier in depth-first order outside its own ancestor chain.
This is the shape `build_dependency_tree` produces on a run in which no
dependency participates in a cycle and every encountered dependency's
marketplace query succeeded; a dependency cycle, or a failed dependency
that is referenced again later, violates it (see the counterexamples
below). -/
def acyclic_resolved (V : List String) : Extension → Bool
  | .mk p i v u deps =>
    let key := p ++ "." ++ i
    if v.isSome && u.isSome then
      decide (key ∉ V) && decide (key ∉ full_keys deps) && acyclic_resolved_forest V deps
    else
      deps.isEmpty && decide (key ∈ V)
  termination_by structural e => e

def acyclic_resolved_forest (V : List String) : List Extension → Bool
  | [] => true
  | t :: ts =>
    acyclic_resolved V t && acyclic_resolved_forest (V ++ (post_fulls t).map Extension.key) ts
  termination_by structural l => l

end

mutual

/-- Main traversal lemma: on an acyclic, fully resolved tree the sequencer
appends exactly the resolved nodes in depth-first post-order, and the
visited set grows by exactly their keys. -/
theorem get_download_order_eq (t : Extension) (order : List Extension) (V : List String)
    (h : acyclic_resolved V t = true) :
    (get_download_order t order V).2 =
      (order ++ post_fulls t, V ++ (post_fulls t).map Extension.key) := by
  cases t with
  | mk p i v u deps =>
    by_cases hfull : (v.isSome && u.isSome) = true
    · have h' := h
      simp only [acyclic_resolved, hfull, if_true, Bool.and_eq_true, decide_eq_true_eq] at h'
      obtain ⟨⟨h1, h2⟩, h3⟩ := h'
      have hdeps := get_download_order_deps_eq deps order V h3
      simp only [get_download_order, hdeps, post_fulls, hfull, if_true]
      rw [if_neg h1]
      simp only [full_keys] at h2
      rw [if_neg (by simp [h1, h2])]
      simp [Extension.key, Extension.publisher, Extension.extension_id]
    · have h' := h
      rw [Bool.not_eq_true] at hfull
      simp only [acyclic_resolved, hfull, Bool.false_eq_true, if_false, Bool.and_eq_true,
        List.isEmpty_iff, decide_eq_true_eq] at h'
      obtain ⟨hnil, hmem⟩ := h'
      simp only [get_download_order, post_fulls, hfull, Bool.false_eq_true, if_false]
      rw [if_pos hmem]
      simp

theorem get_download_order_deps_eq (ts : List Extension) (order : List Extension) (V : List String)
    (h : acyclic_resolved_forest V ts = true) :
    get_download_order_deps ts order V =
      (order ++ post_fulls_forest ts, V ++ (post_fulls_forest ts).map Extension.key) := by
  cases ts with
  | nil => simp [get_download_order_deps, post_fulls_forest]
  | cons t ts =>
    simp only [acyclic_resolved_forest, Bool.and_eq_true] at h
    obtain ⟨h1, h2⟩ := h
    have ht := get_download_order_eq t order V h1
    have hts := get_download_order_deps_eq ts (order ++ post_fulls t)
      (V ++ (post_fulls t).map Extension.key) h2
    simp only [get_download_order_deps, ht, hts, post_fulls_forest]
    simp

end

mutual

/-- Every node collected by `post_fulls` has `version` and `download_url`
set. -/
theorem post_fulls_all_full (t : Extension) :
    ∀ e ∈ post_fulls t, e.version.isSome = true ∧ e.download_url.isSome = true := by
  cases t with
  | mk p i v u deps =>
    intro e he
    by_cases hfull : (v.isSome && u.isSome) = true
    · simp only [post_fulls, hfull, if_true, List.mem_append, List.mem_singleton] at he
      rcases he with he | he
      · exact post_fulls_forest_all_full deps e he
      · subst he
        simp only [Bool.and_eq_true] at hfull
        exact ⟨hfull.1, hfull.2⟩
    · rw [Bool.not_eq_true] at hfull
      simp [post_fulls, hfull] at he

theorem post_fulls_forest_all_full (ts : List Extension) :
    ∀ e ∈ post_fulls_forest ts, e.version.isSome = true ∧ e.download_url.isSome = true := by
  cases ts with
  | nil => intro e he; simp [post_fulls_forest] at he
  | cons t ts =>
    intro e he
    simp only [post_fulls_forest, List.mem_append] at he
    rcases he with he | he
    · exact post_fulls_all_full t e he
    · exact post_fulls_forest_all_full ts e he

end

mutual

/-- On an acyclic, fully resolved tree, appending the resolved keys to a
duplicate-free visited set keeps it duplicate-free. -/
theorem full_keys_nodup_tree (t : Extension) (V : List String)
    (h : acyclic_resolved V t = true) (hV : V.Nodup) :
    (V ++ (post_fulls t).map Extension.key).Nodup := by
  cases t with
  | mk p i v u deps =>
    by_cases hfull : (v.isSome && u.isSome) = true
    · have h' := h
      simp only [acyclic_resolved, hfull, if_true, Bool.and_eq_true, decide_eq_true_eq] at h'
      obtain ⟨⟨h1, h2⟩, h3⟩ := h'
      have ih := full_keys_nodup_forest deps V h3 hV
      simp only [post_fulls, hfull, if_true, List.map_append, List.map_singleton]
      rw [← List.append_assoc]
      apply List.Nodup.append ih (List.nodup_singleton _)
      intro a ha hb
      simp only [List.mem_singleton] at hb
      subst hb
      simp only [Extension.key, Extension.publisher, Extension.extension_id] at ha
      simp only [List.mem_append] at ha
      rcases ha with ha | ha
      · exact h1 ha
      · exact h2 (by simpa [full_keys] using ha)
    · rw [Bool.not_eq_true] at hfull
      simpa [post_fulls, hfull] using hV

theorem full_keys_nodup_forest (ts : List Extension) (V : List String)
    (h : acyclic_resolved_forest V ts = true) (hV : V.Nodup) :
    (V ++ (post_fulls_forest ts).map Extension.key).Nodup := by
  cases ts with
  | nil => simpa [post_fulls_forest] using hV
  | cons t ts =>
    simp only [acyclic_resolved_forest, Bool.and_eq_true] at h
    obtain ⟨h1, h2⟩ := h
    have ih1 := full_keys_nodup_tree t V h1 hV
    have ih2 := full_keys_nodup_forest ts (V ++ (post_fulls t).map Extension.key) h2 ih1
    simpa [post_fulls_forest] using ih2

end

mutual

/-- On an acyclic, fully resolved tree, every key occurring anywhere in the
tree is either already visited or the key of some resolved node of the
tree. -/
theorem keys_covered_tree (t : Extension) (V : List String)
    (h : acyclic_resolved V t = true) :
    ∀ k ∈ keys_tree t, k ∈ V ++ (post_fulls t).map Extension.key := by
  cases t with
  | mk p i v u deps =>
    intro k hk
    simp only [keys_tree, nodes_tree, List.map_cons, List.mem_cons] at hk
    by_cases hfull : (v.isSome && u.isSome) = true
    · have h' := h
      simp only [acyclic_resolved, hfull, if_true, Bool.and_eq_true, decide_eq_true_eq] at h'
      obtain ⟨⟨h1, h2⟩, h3⟩ := h'
      simp only [post_fulls, hfull, if_true, List.map_append, List.map_singleton]
      rcases hk with hk | hk
      · subst hk
        simp [Extension.key, Extension.publisher, Extension.extension_id]
      · have := keys_covered_forest deps V h3 k hk
        simp only [List.mem_append] at this ⊢
        tauto
    · have h' := h
      rw [Bool.not_eq_true] at hfull
      simp only [acyclic_resolved, hfull, Bool.false_eq_true, if_false, Bool.and_eq_true,
        List.isEmpty_iff, decide_eq_true_eq] at h'
      obtain ⟨hnil, hmem⟩ := h'
      subst hnil
      simp only [nodes_forest, List.map_nil, List.mem_cons] at hk
      rcases hk with hk | hk
      · subst hk
        simpa [post_fulls, hfull, Extension.key, Extension.publisher,
          Extension.extension_id] using hmem
      · simp at hk

theorem keys_covered_forest (ts : List Extension) (V : List String)
    (h : acyclic_resolved_forest V ts = true) :
    ∀ k ∈ (nodes_forest ts).map Extension.key, k ∈ V ++ (post_fulls_forest ts).map Extension.key := by
  cases ts with
  | nil => intro k hk; simp [nodes_forest] at hk
  | cons t ts =>
    simp only [acyclic_resolved_forest, Bool.and_eq_true] at h
    obtain ⟨h1, h2⟩ := h
    intro k hk
    simp only [nodes_forest, List.map_append, List.mem_append] at hk
    simp only [post_fulls_forest, List.map_append, List.mem_append, ← List.append_assoc]
    rcases hk with hk | hk
    · have := keys_covered_tree t V h1 k (by simpa [keys_tree] using hk)
      simp only [List.mem_append] at this ⊢
      tauto
    · have := keys_covered_forest ts (V ++ (post_fulls t).map Extension.key) h2 k hk
      simp only [List.mem_append] at this ⊢
      tauto

end

mutual

/-- Every node collected by `post_fulls` is a node of the tree. -/
theorem post_fulls_subset_tree (t : Extension) :
    ∀ e ∈ post_fulls t, e ∈ nodes_tree t := by
  cases t with
  | mk p i v u deps =>
    intro e he
    by_cases hfull : (v.isSome && u.isSome) = true
    · simp only [post_fulls, hfull, if_true, List.mem_append, List.mem_singleton] at he
      simp only [nodes_tree, List.mem_cons]
      rcases he with he | he
      · exact Or.inr (post_fulls_subset_forest deps e he)
      · exact Or.inl he
    · rw [Bool.not_eq_true] at hfull
      simp [post_fulls, hfull] at he

theorem post_fulls_subset_forest (ts : List Extension) :
    ∀ e ∈ post_fulls_forest ts, e ∈ nodes_forest ts := by
  cases ts with
  | nil => intro e he; simp [post_fulls_forest] at he
  | cons t ts =>
    intro e he
    simp only [post_fulls_forest, List.mem_append] at he
    simp only [nodes_forest, List.mem_append]
    rcases he with he | he
    · exact Or.inl (post_fulls_subset_tree t e he)
    · exact Or.inr (post_fulls_subset_forest ts e he)

end

/-- Each root of an acyclic, fully resolved forest has its key among the
visited keys or the forest's resolved keys. -/
theorem root_key_mem (ts : List Extension) (V : List String)
    (h : acyclic_resolved_forest V ts = true) :
    ∀ d ∈ ts, d.key ∈ V ++ (post_fulls_forest ts).map Extension.key := by
  induction ts generalizing V with
  | nil => intro d hd; simp at hd
  | cons t ts ih =>
    simp only [acyclic_resolved_forest, Bool.and_eq_true] at h
    obtain ⟨h1, h2⟩ := h
    intro d hd
    simp only [post_fulls_forest, List.map_append, ← List.append_assoc]
    rcases List.mem_cons.mp hd with hd | hd
    · subst hd
      cases d with
      | mk p i v u deps =>
        by_cases hfull : (v.isSome && u.isSome) = true
        · simp only [post_fulls, hfull, if_true, List.map_append, List.map_singleton]
          simp [Extension.key, Extension.publisher, Extension.extension_id]
        · rw [Bool.not_eq_true] at hfull
          have h' := h1
          simp only [acyclic_resolved, hfull, Bool.false_eq_true, if_false, Bool.and_eq_true,
            List.isEmpty_iff, decide_eq_true_eq] at h'
          simp only [List.mem_append]
          exact Or.inl (Or.inl (by
            simpa [Extension.key, Extension.publisher, Extension.extension_id] using h'.2))
    · have := ih (V ++ (post_fulls t).map Extension.key) h2 d hd
      simp only [List.mem_append] at this ⊢
      tauto

mutual

/-- Splitting lemma: for any node of an acyclic, fully resolved tree and
any of its dependency children, the post-order full sequence splits at the
node, and the child's key already occurs to the left of the split (either
among the previously visited keys or among the keys appended before the
node). -/
theorem split_tree (t : Extension) (V : List String)
    (h : acyclic_resolved V t = true) :
    ∀ x ∈ nodes_tree t, ∀ d ∈ x.dependencies,
      ∃ A B, post_fulls t = A ++ x :: B ∧ d.key ∈ V ++ A.map Extension.key := by
  cases t with
  | mk p i v u deps =>
    intro x hx d hd
    by_cases hfull : (v.isSome && u.isSome) = true
    · have h' := h
      simp only [acyclic_resolved, hfull, if_true, Bool.and_eq_true, decide_eq_true_eq] at h'
      obtain ⟨⟨h1, h2⟩, h3⟩ := h'
      simp only [nodes_tree, List.mem_cons] at hx
      rcases hx with hx | hx
      · subst hx
        refine ⟨post_fulls_forest deps, [], ?_, ?_⟩
        · simp [post_fulls, hfull]
        · simpa using root_key_mem deps V h3 d hd
      · obtain ⟨A, B, hAB, hkey⟩ := split_forest deps V h3 x hx d hd
        refine ⟨A, B ++ [Extension.mk p i v u deps], ?_, hkey⟩
        simp [post_fulls, hfull, hAB]
    · rw [Bool.not_eq_true] at hfull
      have h' := h
      simp only [acyclic_resolved, hfull, Bool.false_eq_true, if_false, Bool.and_eq_true,
        List.isEmpty_iff, decide_eq_true_eq] at h'
      obtain ⟨hnil, hmem⟩ := h'
      subst hnil
      simp only [nodes_tree, nodes_forest, List.mem_singleton] at hx
      subst hx
      simp only [Extension.dependencies] at hd
      simp at hd

theorem split_forest (ts : List Extension) (V : List String)
    (h : acyclic_resolved_forest V ts = true) :
    ∀ x ∈ nodes_forest ts, ∀ d ∈ x.dependencies,
      ∃ A B, post_fulls_forest ts = A ++ x :: B ∧ d.key ∈ V ++ A.map Extension.key := by
  cases ts with
  | nil => intro x hx; simp [nodes_forest] at hx
  | cons t ts =>
    simp only [acyclic_resolved_forest, Bool.and_eq_true] at h
    obtain ⟨h1, h2⟩ := h
    intro x hx d hd
    simp only [nodes_forest, List.mem_append] at hx
    rcases hx with hx | hx
    · obtain ⟨A, B, hAB, hkey⟩ := split_tree t V h1 x hx d hd
      refine ⟨A, B ++ post_fulls_forest ts, ?_, hkey⟩
      simp [post_fulls_forest, hAB]
    · obtain ⟨A, B, hAB, hkey⟩ :=
        split_forest ts (V ++ (post_fulls t).map Extension.key) h2 x hx d hd
      refine ⟨post_fulls t ++ A, B, ?_, ?_⟩
      · simp [post_fulls_forest, hAB]
      · simpa [List.map_append] using hkey

end

/-- A key occurring in the prefix is found before the prefix ends. -/
theorem findIdx_key_lt (A C : List Extension) (k : String) (hk : k ∈ A.map Extension.key) :
    (A ++ C).findIdx (fun e => e.key == k) < A.length := by
  induction A with
  | nil => simp at hk
  | cons a A ih =>
    by_cases ha : (a.key == k) = true
    · simp [List.findIdx_cons, ha]
    · have hk' : k ∈ A.map Extension.key := by
        simp only [List.map_cons, List.mem_cons] at hk
        rcases hk with hk | hk
        · exact absurd (by simp [hk]) ha
        · exact hk
      simpa [List.findIdx_cons, ha] using ih hk'

/-- A key absent from the prefix is first found at the split point. -/
theorem findIdx_key_split (A : List Extension) (x : Extension) (B : List Extension)
    (hk : x.key ∉ A.map Extension.key) :
    (A ++ x :: B).findIdx (fun e => e.key == x.key) = A.length := by
  induction A with
  | nil => simp [List.findIdx_cons]
  | cons a A ih =>
    have ha : (a.key == x.key) = false := by
      simp only [List.map_cons, List.mem_cons, not_or] at hk
      simpa using fun hh => hk.1 hh.symm
    have hk' : x.key ∉ A.map Extension.key := by
      simp only [List.map_cons, List.mem_cons, not_or] at hk
      exact hk.2
    simp [List.findIdx_cons, ha, ih hk']

/-- When the sequencer does return a list (Python `return order`), that
list is the final state of the `order` accumulator. -/
theorem get_download_order_some_eq (t : Extension) (order : List Extension) (V : List String)
    (ord : List Extension) (h : (get_download_order t order V).1 = some ord) :
    (get_download_order t order V).2.1 = ord := by
  cases t with
  | mk p i v u deps =>
    simp only [get_download_order] at h ⊢
    by_cases h1 : (p ++ "." ++ i) ∈ V
    · rw [if_pos h1] at h
      simp at h
    · rw [if_neg h1] at h ⊢
      by_cases h2 : (p ++ "." ++ i) ∈ (get_download_order_deps deps order V).2
      · rw [if_pos h2] at h ⊢
        simpa using h
      · rw [if_neg h2] at h ⊢
        simpa using h

/-- The marketplace `files` entry for the VSIX package asset. -/
def pkgFile (url : String) : VersionFile :=
  ⟨"Microsoft.VisualStudio.Services.VSIXPackage", url⟩

/-- The marketplace `files` entry for the manifest asset. -/
def manFile (url : String) : VersionFile :=
  ⟨"Microsoft.VisualStudio.Code.Manifest", url⟩

/-- Marketplace response for extension `a.x`, version 1.0.0 for
`linux-x64`. -/
def infoCycA : ExtensionInfo :=
  ⟨[⟨[⟨[⟨some "linux-x64", some "1.0.0", [manFile "https://man/a", pkgFile "https://pkg/a"]⟩]⟩]⟩]⟩

/-- Marketplace response for extension `b.y`, version 2.0.0 for
`linux-x64`. -/
def infoCycB : ExtensionInfo :=
  ⟨[⟨[⟨[⟨some "linux-x64", some "2.0.0", [manFile "https://man/b", pkgFile "https://pkg/b"]⟩]⟩]⟩]⟩

/-- Manifest oracle declaring the dependency cycle `a.x -> b.y -> a.x`. -/
def netCyc : ManifestNet := fun url =>
  if url = "https://man/a" then some ⟨some ["b.y"]⟩
  else if url = "https://man/b" then some ⟨some ["a.x"]⟩
  else none

/-- Registry for the cyclic scenario, running the real `get_download_info`
on the concrete marketplace responses. -/
def regCyc : Registry := fun p i =>
  if p = "a" ∧ i = "x" then get_download_info netCyc infoCycA "linux-x64"
  else if p = "b" ∧ i = "y" then get_download_info netCyc infoCycB "linux-x64"
  else .error "no extension found"

/-- The stub `build_dependency_tree` returns when it meets the
already-visited key `a.x` again: `version` and `download_url` unset. -/
def extCycStub : Extension := Extension.mk "a" "x" none none []

def extCycB : Extension :=
  Extension.mk "b" "y" (some "2.0.0") (some "https://pkg/b") [extCycStub]

def extCycA : Extension :=
  Extension.mk "a" "x" (some "1.0.0") (some "https://pkg/a") [extCycB]

/-- C1: the claim fails on the code.  Under the dependency cycle
`a.x -> b.y -> a.x` the run of `build_dependency_tree` completes without
raising and returns the tree `a.x [b.y [stub a.x]]`, yet the sequence
produced by `get_download_order` is `[stub a.x, b.y]`: it contains the
stub node with key `a.x` whose `version` and `download_url` are unset
(and drops the resolved `a.x` node entirely). -/
theorem c1_counterexample :
    (build_dependency_tree regCyc 5 (Extension.mk "a" "x" none none []) []).1 = .ok extCycA ∧
    (get_download_order extCycA [] []).1 = some [extCycStub, extCycB] ∧
    extCycStub.key = "a.x" ∧ extCycStub.version = none ∧ extCycStub.download_url = none :=
  ⟨rfl, rfl, rfl, rfl, rfl⟩

/-- C1 (amended): for a resolution run whose built tree is acyclic and
fully resolved — no stub refers back to an ancestor's key and every stub's
key has a fully resolved node strictly earlier in depth-first order
(equivalently: no dependency cycle was met and every encountered
dependency's marketplace query succeeded) — every node that
`get_download_order` places into the sequence has `version` and
`download_url` set. -/
theorem c1_amended (reg : Registry) (fuel : Nat) (root t : Extension) (V : List String)
    (hrun : build_dependency_tree reg fuel root [] = (.ok t, V))
    (hsafe : acyclic_resolved [] t = true)
    (ord : List Extension) (hord : (get_download_order t [] []).1 = some ord) :
    ∀ e ∈ ord, e.version.isSome = true ∧ e.download_url.isSome = true := by
  have h2 := get_download_order_eq t [] [] hsafe
  have h1 := get_download_order_some_eq t [] [] ord hord
  rw [h2] at h1
  simp only [List.nil_append] at h1
  subst h1
  exact post_fulls_all_full t

/-- Acyclic two-extension registry for the positive witnesses:
`a.tool` at 1.2.3 depends on `c.lib` at 0.1.0. -/
def regChain : Registry := fun p i =>
  if p = "c" ∧ i = "lib" then .ok ("https://pkg/clib", some "0.1.0", [])
  else if p = "a" ∧ i = "tool" then .ok ("https://pkg/atool", some "1.2.3", ["c.lib"])
  else .error "no extension found"

def extChainC : Extension :=
  Extension.mk "c" "lib" (some "0.1.0") (some "https://pkg/clib") []

def extChainA : Extension :=
  Extension.mk "a" "tool" (some "1.2.3") (some "https://pkg/atool") [extChainC]

/-- Witness for `c1_amended` on the concrete acyclic run of `regChain`:
every hypothesis is discharged by evaluation, and the conclusion is read
off for the first sequenced node. -/
theorem c1_amended_witness :
    extChainC.version.isSome = true ∧ extChainC.download_url.isSome = true :=
  c1_amended regChain 4 (Extension.mk "a" "tool" none none []) extChainA
    ["a.tool", "c.lib"] rfl rfl [extChainC, extChainA] rfl extChainC
    (List.mem_cons_self _ _)

/-- C4: the claim fails on the code.  The cyclic run of `regCyc` builds
the tree `a.x [b.y [stub a.x]]` (revisits collapsed into leaf stubs), and
for the tree edge from parent `a.x` to its dependency `b.y` the sequence
`[stub a.x, b.y]` puts the first occurrence of the dependency key `b.y`
at index 1 and of the parent key `a.x` at index 0: the dependency does
not precede its parent. -/
theorem c4_counterexample :
    (build_dependency_tree regCyc 5 (Extension.mk "a" "x" none none []) []).1 = .ok extCycA ∧
    extCycB ∈ extCycA.dependencies ∧
    (get_download_order extCycA [] []).1 = some [extCycStub, extCycB] ∧
    [extCycStub, extCycB].findIdx (fun e => e.key == extCycB.key) = 1 ∧
    [extCycStub, extCycB].findIdx (fun e => e.key == extCycA.key) = 0 ∧
    ¬([extCycStub, extCycB].findIdx (fun e => e.key == extCycB.key) <
      [extCycStub, extCycB].findIdx (fun e => e.key == extCycA.key)) :=
  ⟨rfl, List.mem_cons_self _ _, rfl, rfl, rfl, by decide⟩

/-- C4 (amended): for a built tree that is acyclic and fully resolved (no
dependency cycle, all encountered dependencies resolved), the sequence
returned by `get_download_order` contains each distinct key of the tree
exactly once (its keys are duplicate-free and are exactly the keys
occurring in the tree), and for every parent-to-dependency edge of the
tree the index of the dependency's first occurrence in the sequence is
strictly less than the index of the parent's. -/
theorem c4_amended (reg : Registry) (fuel : Nat) (root t : Extension) (V : List String)
    (hrun : build_dependency_tree reg fuel root [] = (.ok t, V))
    (hsafe : acyclic_resolved [] t = true)
    (ord : List Extension) (hord : (get_download_order t [] []).1 = some ord) :
    (ord.map Extension.key).Nodup ∧
    (∀ k, k ∈ ord.map Extension.key ↔ k ∈ keys_tree t) ∧
    (∀ x ∈ nodes_tree t, ∀ d ∈ x.dependencies,
      ord.findIdx (fun e => e.key == d.key) < ord.findIdx (fun e => e.key == x.key)) := by
  have h2 := get_download_order_eq t [] [] hsafe
  have h1 := get_download_order_some_eq t [] [] ord hord
  rw [h2] at h1
  simp only [List.nil_append] at h1
  subst h1
  have hnodup : ((post_fulls t).map Extension.key).Nodup := by
    simpa using full_keys_nodup_tree t [] hsafe List.nodup_nil
  refine ⟨hnodup, ?_, ?_⟩
  · intro k
    constructor
    · intro hk
      obtain ⟨e, he, hek⟩ := List.mem_map.mp hk
      subst hek
      exact List.mem_map_of_mem Extension.key (post_fulls_subset_tree t e he)
    · intro hk
      simpa using keys_covered_tree t [] hsafe k hk
  · intro x hx d hd
    obtain ⟨A, B, hAB, hkey⟩ := split_tree t [] hsafe x hx d hd
    simp only [List.nil_append] at hkey
    rw [hAB]
    have hxA : x.key ∉ A.map Extension.key := by
      rw [hAB] at hnodup
      simp only [List.map_append, List.map_cons, List.nodup_append] at hnodup
      intro hmem
      exact hnodup.2.2 hmem (List.mem_cons_self _ _)
    rw [findIdx_key_split A x B hxA]
    exact findIdx_key_lt A (x :: B) d.key hkey

/-- Registry for the diamond witness: `a.app` depends on `b.ui` and
`c.core`, and `b.ui` also depends on `c.core`. -/
def regDiamond : Registry := fun p i =>
  if p = "a" ∧ i = "app" then .ok ("https://pkg/app", some "1.0.0", ["b.ui", "c.core"])
  else if p = "b" ∧ i = "ui" then .ok ("https://pkg/ui", some "2.0.0", ["c.core"])
  else if p = "c" ∧ i = "core" then .ok ("https://pkg/core", some "3.0.0", [])
  else .error "no extension found"

def extDiaClean : Extension :=
  Extension.mk "c" "core" (some "3.0.0") (some "https://pkg/core") []

def extDiaStub : Extension := Extension.mk "c" "core" none none []

def extDiaB : Extension :=
  Extension.mk "b" "ui" (some "2.0.0") (some "https://pkg/ui") [extDiaClean]

def extDiaA : Extension :=
  Extension.mk "a" "app" (some "1.0.0") (some "https://pkg/app") [extDiaB, extDiaStub]

/-- Witness for `c4_amended` on the diamond run: the sequence is
`[c.core, b.ui, a.app]`, its keys are duplicate-free, and the edge from
`a.app` to its second dependency child (the revisit stub of `c.core`)
comes out ordered by first occurrence: index 0 against index 2. -/
theorem c4_amended_witness :
    ([extDiaClean, extDiaB, extDiaA].map Extension.key).Nodup ∧
    [extDiaClean, extDiaB, extDiaA].findIdx (fun e => e.key == extDiaStub.key) <
      [extDiaClean, extDiaB, extDiaA].findIdx (fun e => e.key == extDiaA.key) :=
  ⟨(c4_amended regDiamond 5 (Extension.mk "a" "app" none none []) extDiaA
      ["a.app", "b.ui", "c.core"] rfl rfl [extDiaClean, extDiaB, extDiaA] rfl).1,
   (c4_amended regDiamond 5 (Extension.mk "a" "app" none none []) extDiaA
      ["a.app", "b.ui", "c.core"] rfl rfl [extDiaClean, extDiaB, extDiaA] rfl).2.2
     extDiaA (by simp [nodes_tree, nodes_forest, extDiaA])
     extDiaStub (by simp [extDiaA, Extension.dependencies, extDiaStub, extDiaB])⟩

/-- C10: when the root extension's key is already in the visited set the
caller passes, `get_download_order` executes Python's bare `return`: the
function's return value is `None` rather than the order accumulator, and
both accumulators are left untouched (the accumulated order stays
observable only through the caller's own reference to the mutated list). -/
theorem c10_visited_root_returns_none (e : Extension) (order : List Extension)
    (visited : List String) (h : e.key ∈ visited) :
    get_download_order e order visited = (none, order, visited) := by
  cases e with
  | mk p i v u deps =>
    simp only [get_download_order]
    rw [if_pos (by
      simpa [Extension.key, Extension.publisher, Extension.extension_id] using h)]

/-- Witness for `c10_visited_root_returns_none` at a concrete root whose
key `a.x` is in the passed visited set. -/
theorem c10_visited_root_returns_none_witness :
    get_download_order (Extension.mk "a" "x" (some "1.0.0") (some "https://pkg/a") [])
      [] ["a.x"] = (none, [], ["a.x"]) :=
  c10_visited_root_returns_none
    (Extension.mk "a" "x" (some "1.0.0") (some "https://pkg/a") []) [] ["a.x"] (by decide)

/-- C3: the claim fails on the code.  With no declared content length the
code sets `total_size = int(response.headers.get('content-length', 0)) = 0`
and still runs the byte-count verification against 0: a stream that ends
without transport error after writing 5 bytes fails the check on every
attempt, so the download is NOT accepted — `download_with_retry` returns
`False` (`exhausted`), nothing is renamed to the final path, and the last
attempt's temp file is left behind. -/
theorem c3_counterexample :
    (download_with_retry (fun _ => .body none 5) 3 ⟨none, none, 0, 0, false⟩).2 = .exhausted ∧
    (download_with_retry (fun _ => .body none 5) 3 ⟨none, none, 0, 0, false⟩).2 ≠ .success ∧
    (download_with_retry (fun _ => .body none 5) 3 ⟨none, none, 0, 0, false⟩).1.final = none ∧
    (download_with_retry (fun _ => .body none 5) 3 ⟨none, none, 0, 0, false⟩).1.temp = some 5 :=
  ⟨rfl, by decide, rfl, rfl⟩

/-- C3 (amended): when the server provides no content length the code
treats the declared length as 0, so an attempt whose stream ends without
transport error is accepted (temp renamed to the final path, `True`
returned) only when it wrote zero bytes; any nonzero byte count is treated
as a size mismatch and the attempt is consumed with the loop continuing. -/
theorem c3_amended (st : DLState) (isLast : Bool) (n : Nat) (h : n ≠ 0) :
    download_attempt st (.body none n) isLast =
      (⟨some n, st.final, st.sleeps, st.netCalls + 1, true⟩, none) ∧
    download_attempt st (.body none 0) isLast =
      (⟨none, some 0, st.sleeps, st.netCalls + 1, true⟩, some .success) := by
  have hb : (n == 0) = false := by simpa using h
  constructor
  · simp [download_attempt, hb]
  · simp [download_attempt]

/-- Witness for `c3_amended` at a 5-byte stream with no content length,
starting from an empty filesystem state. -/
theorem c3_amended_witness :
    download_attempt ⟨none, none, 0, 0, false⟩ (.body none 5) false =
      (⟨some 5, none, 0, 1, true⟩, none) ∧
    download_attempt ⟨none, none, 0, 0, false⟩ (.body none 0) false =
      (⟨none, some 0, 0, 1, true⟩, some .success) :=
  c3_amended ⟨none, none, 0, 0, false⟩ false 5 (by decide)

/-- One attempt of the retry loop fails: either an exception was raised
(transport error) or the stream ended with a byte count different from
the declared content length (with an absent header counting as 0, as the
code computes it). -/
def attempt_fails : AttemptOutcome → Prop
  | .fail _ _ => True
  | .body contentLength bytes => bytes ≠ contentLength.getD 0

/-- C5: the claim fails on the code.  When all 3 attempts fail by size
mismatch (declared length 10, 4 bytes written each time), the fetcher does
NOT remove the stray temp file: the size-mismatch path only `continue`s,
so after the loop returns `False` the last attempt's temp file is still on
disk, while `download_extension` turns the `False` into a raised terminal
error and no file exists at the final path. -/
theorem c5_counterexample :
    (download_with_retry (fun _ => .body (some 10) 4) 3 ⟨none, none, 0, 0, false⟩).1.temp = some 4 ∧
    (download_with_retry (fun _ => .body (some 10) 4) 3 ⟨none, none, 0, 0, false⟩).1.temp ≠ none ∧
    (download_with_retry (fun _ => .body (some 10) 4) 3 ⟨none, none, 0, 0, false⟩).1.final = none ∧
    (download_extension (fun _ => .body (some 10) 4) none none
        (Extension.mk "a" "x" (some "1.0.0") (some "https://pkg/a") []) 1 1 "downloads").1 =
      .error "Download failed after all retries" :=
  ⟨rfl, by decide, rfl, rfl⟩

/-- An attempt whose outcome reached the `temp_path` assignment at line
194: the stream was entered (even if it later failed mid-write), so the
local variable is bound from this attempt on. -/
def attempt_opens_temp : AttemptOutcome → Bool
  | .fail _ streamed => streamed.isSome
  | .body _ _ => true

/-- C5 (amended): when all 3 attempts fail, `download_extension` returns a
terminal error and leaves no file at the final path.  The stray temp file
is removed only when the final attempt failed with a transport exception
AND some attempt of the run reached the temp-file open (so the local
`temp_path` is bound); when every attempt failed before that point, the
cleanup line itself raises `UnboundLocalError` and a stale pre-existing
temp file is left untouched on disk; when the final attempt failed the
size check, the temp file it wrote is left behind. -/
theorem c5_amended (attempts : Nat → AttemptOutcome) (preTemp : Option Nat)
    (e : Extension) (index total : Nat) (dir : String)
    (h : ∀ j, j < 3 → attempt_fails (attempts j)) :
    (∃ m, (download_extension attempts none preTemp e index total dir).1 = .error m) ∧
    (download_extension attempts none preTemp e index total dir).2.final = none ∧
    (∀ m s, attempts 2 = .fail m s →
      ((attempt_opens_temp (attempts 0) || attempt_opens_temp (attempts 1) ||
          attempt_opens_temp (attempts 2)) = true →
        (download_extension attempts none preTemp e index total dir).2.temp = none) ∧
      ((attempt_opens_temp (attempts 0) || attempt_opens_temp (attempts 1) ||
          attempt_opens_temp (attempts 2)) = false →
        (download_extension attempts none preTemp e index total dir).2.temp = preTemp ∧
        (download_extension attempts none preTemp e index total dir).1 =
          .error "UnboundLocalError: local variable temp_path referenced before assignment")) ∧
    (∀ cl n, attempts 2 = .body cl n →
      (download_extension attempts none preTemp e index total dir).2.temp = some n) := by
  have h0 := h 0 (by omega)
  have h1 := h 1 (by omega)
  have h2 := h 2 (by omega)
  rcases e0 : attempts 0 with ⟨m0, s0⟩ | ⟨cl0, n0⟩ <;>
    rcases e1 : attempts 1 with ⟨m1, s1⟩ | ⟨cl1, n1⟩ <;>
      rcases e2 : attempts 2 with ⟨m2, s2⟩ | ⟨cl2, n2⟩ <;>
  · rw [e0] at h0; rw [e1] at h1; rw [e2] at h2
    simp only [attempt_fails] at h0 h1 h2
    refine ⟨?_, ?_, ?_, ?_⟩ <;>
    · first
      | (rcases s0 with _ | k0 <;> rcases s1 with _ | k1 <;> rcases s2 with _ | k2 <;>
          simp_all [download_extension, download_with_retry, download_retry_loop,
            download_attempt, attempt_opens_temp, beq_eq_false_iff_ne])
      | simp_all [download_extension, download_with_retry, download_retry_loop,
          download_attempt, attempt_opens_temp, beq_eq_false_iff_ne]

/-- All-transport-failure scenario for the `c5_amended` witness: the first
attempt dies mid-stream after 3 bytes (so `temp_path` gets bound), the
remaining attempts fail before reaching the stream. -/
def attemptsAllFail : Nat → AttemptOutcome := fun j =>
  if j = 0 then .fail "connection reset by peer" (some 3)
  else .fail "connection refused" none

/-- Witness for `c5_amended`: all three attempts fail with transport
errors, one of them bound `temp_path`, so the final attempt's cleanup
really removes the stray temp file. -/
theorem c5_amended_witness :
    (download_extension attemptsAllFail none (some 7)
        (Extension.mk "a" "x" (some "1.0.0") (some "https://pkg/a") []) 1 1 "downloads").2.temp =
      none := by
  have h := c5_amended attemptsAllFail (some 7)
    (Extension.mk "a" "x" (some "1.0.0") (some "https://pkg/a") []) 1 1 "downloads"
    (by
      intro j hj
      unfold attemptsAllFail
      split <;> trivial)
  exact (h.2.2.1 "connection refused" none rfl).1 rfl

/-- C6: the claim fails on the code.  An attempt whose byte count (4)
mismatches the declared length (10) hits the `else: print(...); continue`
path: the temp file is NOT deleted before the retry (it stays on disk,
size 4, until the next attempt reopens it), and NO backoff delay is taken
(`time.sleep(1)` sits only in the exception handler) — a run that
mismatches once and then succeeds finishes with zero sleeps.  Only the
"consumes one of the N attempts" part of the claim holds. -/
theorem c6_counterexample :
    download_attempt ⟨none, none, 0, 0, false⟩ (.body (some 10) 4) false =
      (⟨some 4, none, 0, 1, true⟩, none) ∧
    (⟨some 4, none, 0, 1, true⟩ : DLState).temp ≠ none ∧
    (⟨some 4, none, 0, 1, true⟩ : DLState).sleeps = 0 ∧
    (download_with_retry (fun j => if j = 0 then .body (some 10) 4 else .body (some 10) 10)
        3 ⟨none, none, 0, 0, false⟩).2 = .success ∧
    (download_with_retry (fun j => if j = 0 then .body (some 10) 4 else .body (some 10) 10)
        3 ⟨none, none, 0, 0, false⟩).1.sleeps = 0 :=
  ⟨rfl, by decide, rfl, rfl, rfl⟩

/-- C6 (amended): an attempt whose written byte count mismatches the
declared content length consumes one of the N bounded attempts and the
loop proceeds to the next one, but the temp file is left in place holding
the mismatched bytes (the next attempt truncates it on open) and no
backoff sleep is taken on this path; the `time.sleep(1)` backoff runs only
after a transport exception on a non-final attempt. -/
theorem c6_amended (st : DLState) (cl : Option Nat) (n : Nat) (isLast : Bool)
    (h : n ≠ cl.getD 0) :
    download_attempt st (.body cl n) isLast =
      (⟨some n, st.final, st.sleeps, st.netCalls + 1, true⟩, none) := by
  have hb : (n == cl.getD 0) = false := by simpa using h
  simp [download_attempt, hb]

/-- Witness for `c6_amended` at declared length 10 and 4 written bytes. -/
theorem c6_amended_witness :
    download_attempt ⟨none, none, 0, 0, false⟩ (.body (some 10) 4) true =
      (⟨some 4, none, 0, 1, true⟩, none) :=
  c6_amended ⟨none, none, 0, 0, false⟩ (some 10) 4 true (by decide)

/-- C8: if the target output path already exists, `download_extension`
returns that path immediately: the `os.path.exists` branch makes zero
network calls, takes no sleeps, leaves the existing file exactly as it was
and does not touch any temp sibling (no integrity re-check of any kind
happens in that branch). -/
theorem c8_preexisting_short_circuit (attempts : Nat → AttemptOutcome)
    (preTemp : Option Nat) (sz : Nat) (e : Extension) (index total : Nat) (dir : String) :
    download_extension attempts (some sz) preTemp e index total dir =
      (.ok (dir ++ "/" ++ vsix_filename index e), ⟨preTemp, some sz, 0, 0, false⟩) := rfl

/-- C2: the claim fails on the code.  A failed item is recorded and the
loop continues, but the per-item `except` block swallows the exception, so
`main` finishes normally: with one item whose fetch permanently fails, the
loop result is a normal `.ok` and the process exit status is 0 (success),
not a failure status — `sys.exit(1)` would require an exception to reach
`main`'s outer handler. -/
theorem c2_counterexample :
    main_download_loop (fun _ => .error "Download failed after all retries")
        [Extension.mk "a" "x" (some "1.0.0") (some "https://pkg/a") []] [] [] =
      .ok ([], ["Error downloading a.x: Download failed after all retries"]) ∧
    exit_code (main_download_loop (fun _ => .error "Download failed after all retries")
        [Extension.mk "a" "x" (some "1.0.0") (some "https://pkg/a") []] [] []) = 0 ∧
    (0 : Nat) ≠ 1 :=
  ⟨rfl, rfl, by decide⟩

/-- C2 (amended): every item of the sequenced list is fetched — each item
contributes exactly one entry, to the downloaded files on success or to
the recorded error messages on failure, in order — and the loop always
completes normally, so the run's exit status is 0 (success) regardless of
how many items failed. -/
theorem c2_amended (fetch : Extension → Except String String) (items : List Extension)
    (files errs : List String) :
    main_download_loop fetch items files errs =
      .ok (files ++ items.filterMap (fun e => (fetch e).toOption),
           errs ++ items.filterMap (fun e =>
             match fetch e with
             | .ok _ => none
             | .error m => some ("Error downloading " ++ e.key ++ ": " ++ m))) ∧
    exit_code (main_download_loop fetch items files errs) = 0 := by
  induction items generalizing files errs with
  | nil => simp [main_download_loop, exit_code]
  | cons e es ih =>
    rcases hf : fetch e with m | p
    · have := ih files (errs ++ ["Error downloading " ++ e.key ++ ": " ++ m])
      simp only [main_download_loop, hf] at this ⊢
      simpa [hf, Except.toOption, List.filterMap_cons, List.append_assoc] using this
    · have := ih (files ++ [p]) errs
      simp only [main_download_loop, hf] at this ⊢
      simpa [hf, Except.toOption, List.filterMap_cons, List.append_assoc] using this

/-- Bool test: does `needle` occur as a contiguous substring of the
character list? -/
def char_list_sub (needle : List Char) : List Char → Bool
  | [] => needle.isEmpty
  | c :: rest => needle.isPrefixOf (c :: rest) || char_list_sub needle rest

/-- Bool test: does `needle` occur as a contiguous substring of `hay`? -/
def str_has_substr (hay needle : String) : Bool :=
  char_list_sub needle.data hay.data

/-- Marketplace response offering only a `darwin-arm64` variant. -/
def infoDarwinOnly : ExtensionInfo :=
  ⟨[⟨[⟨[⟨some "darwin-arm64", some "1.2.3", [pkgFile "https://pkg/d"]⟩]⟩]⟩]⟩

/-- C7: the claim fails on the code.  Resolving extension `foo.bar` for
platform `linux-x64` against a response with no matching variant raises
`ValueError(f'No package found for platform: {target_platform}')`: the
message names the requested platform but does not name the extension being
resolved (neither `foo.bar`, nor `foo`, nor `bar` occurs in it) —
`get_download_info` does not even receive the extension's identity, and
`build_dependency_tree` propagates the message unchanged. -/
theorem c7_counterexample :
    (build_dependency_tree
        (fun _ _ => get_download_info (fun _ => none) infoDarwinOnly "linux-x64") 3
        (Extension.mk "foo" "bar" none none []) []).1 =
      .error "No package found for platform: linux-x64" ∧
    str_has_substr "No package found for platform: linux-x64" "linux-x64" = true ∧
    str_has_substr "No package found for platform: linux-x64" "foo.bar" = false ∧
    str_has_substr "No package found for platform: linux-x64" "foo" = false ∧
    str_has_substr "No package found for platform: linux-x64" "bar" = false :=
  ⟨rfl, rfl, rfl, rfl, rfl⟩

/-- The needle is always found at the end of `pre ++ needle`. -/
theorem char_list_sub_append (pre needle : List Char) :
    char_list_sub needle (pre ++ needle) = true := by
  induction pre with
  | nil =>
    cases needle with
    | nil => rfl
    | cons c cs =>
      simp [char_list_sub, List.isPrefixOf_iff_prefix]
  | cons c pre ih =>
    simp [char_list_sub, ih]

/-- The version loop falls through to the `ValueError` when no version's
platform tag matches. -/
theorem no_platform_match_error (net : ManifestNet) (tp : String) :
    ∀ vs : List MarketVersion,
      (∀ v ∈ vs, pyLower (v.targetPlatform.getD "") ≠ pyLower tp) →
      get_download_info_versions net tp vs =
        .error ("No package found for platform: " ++ tp) := by
  intro vs
  induction vs with
  | nil => intro _; rfl
  | cons v vs ih =>
    intro hnone
    have hv : (pyLower (v.targetPlatform.getD "") == pyLower tp) = false := by
      simpa using hnone v (List.mem_cons_self _ _)
    simp only [get_download_info_versions, hv, Bool.false_eq_true, if_false]
    exact ih (fun w hw => hnone w (List.mem_cons_of_mem _ hw))

/-- C7 (amended): when no variant's advertised platform case-insensitively
equals the requested platform (and the response parses, i.e. has a first
result with a first extension), the locator fails with
`ValueError('No package found for platform: <platform>')` — an error whose
message names the requested platform, but not the extension being
resolved. -/
theorem c7_amended (net : ManifestNet) (info : ExtensionInfo) (tp : String)
    (r : QueryResult) (mext : MarketExtension)
    (hr : info.results.head? = some r) (hm : r.extensions.head? = some mext)
    (hnone : ∀ v ∈ mext.versions, pyLower (v.targetPlatform.getD "") ≠ pyLower tp) :
    get_download_info net info tp = .error ("No package found for platform: " ++ tp) ∧
    str_has_substr ("No package found for platform: " ++ tp) tp = true := by
  constructor
  · simp only [get_download_info, hr, hm]
    exact no_platform_match_error net tp mext.versions hnone
  · show char_list_sub tp.data ("No package found for platform: " ++ tp).data = true
    rw [String.data_append]
    exact char_list_sub_append _ _

/-- Witness for `c7_amended` on the concrete `darwin-arm64`-only response
queried for `linux-x64`. -/
theorem c7_amended_witness :
    get_download_info (fun _ => none) infoDarwinOnly "linux-x64" =
      .error ("No package found for platform: " ++ "linux-x64") ∧
    str_has_substr ("No package found for platform: " ++ "linux-x64") "linux-x64" = true :=
  c7_amended (fun _ => none) infoDarwinOnly "linux-x64"
    ⟨[⟨[⟨some "darwin-arm64", some "1.2.3", [pkgFile "https://pkg/d"]⟩]⟩]⟩
    ⟨[⟨some "darwin-arm64", some "1.2.3", [pkgFile "https://pkg/d"]⟩]⟩
    rfl rfl (by decide)

/-- A manifest oracle that always fails makes `get_extension_manifest`
return `None` whatever the version's files are. -/
theorem get_extension_manifest_net_none (v : MarketVersion) :
    get_extension_manifest (fun _ => none) v = none := by
  simp only [get_extension_manifest]
  cases v.files.find? (fun f => f.assetType == "Microsoft.VisualStudio.Code.Manifest") <;> rfl

/-- Success of the version loop does not depend on the manifest oracle:
if it succeeds under some oracle, it succeeds with the same URL and
version under the always-failing oracle, with the dependency list fallen
back to empty. -/
theorem version_loop_net_irrelevant (net : ManifestNet) (tp : String) :
    ∀ (vs : List MarketVersion) (u : String) (ver : Option String) (deps : List String),
      get_download_info_versions net tp vs = .ok (u, ver, deps) →
      get_download_info_versions (fun _ => none) tp vs = .ok (u, ver, []) := by
  intro vs
  induction vs with
  | nil =>
    intro u ver deps h
    exact absurd h (by simp [get_download_info_versions])
  | cons v vs ih =>
    intro u ver deps h
    by_cases hv : (pyLower (v.targetPlatform.getD "") == pyLower tp) = true
    · simp only [get_download_info_versions, hv, if_true] at h ⊢
      rcases hfind : v.files.find?
          (fun f => f.assetType == "Microsoft.VisualStudio.Services.VSIXPackage") with _ | f
      · rw [hfind] at h ⊢
        exact ih u ver deps h
      · rw [hfind] at h ⊢
        simp only [Except.ok.injEq, Prod.mk.injEq] at h
        obtain ⟨hu, hver, _⟩ := h
        simp [get_extension_manifest_net_none, get_extension_dependencies, hu, hver]
    · rw [Bool.not_eq_true] at hv
      simp only [get_download_info_versions, hv, Bool.false_eq_true, if_false] at h ⊢
      exact ih u ver deps h

/-- When every version's manifest lookup comes back `None` (absent asset
or failed fetch), a successful version loop reports no dependencies. -/
theorem version_loop_manifest_none (net : ManifestNet) (tp : String) :
    ∀ (vs : List MarketVersion) (u : String) (ver : Option String) (deps : List String),
      (∀ v ∈ vs, get_extension_manifest net v = none) →
      get_download_info_versions net tp vs = .ok (u, ver, deps) → deps = [] := by
  intro vs
  induction vs with
  | nil =>
    intro u ver deps _ h
    exact absurd h (by simp [get_download_info_versions])
  | cons v vs ih =>
    intro u ver deps hall h
    by_cases hv : (pyLower (v.targetPlatform.getD "") == pyLower tp) = true
    · simp only [get_download_info_versions, hv, if_true] at h
      rcases hfind : v.files.find?
          (fun f => f.assetType == "Microsoft.VisualStudio.Services.VSIXPackage") with _ | f
      · rw [hfind] at h
        exact ih u ver deps (fun w hw => hall w (List.mem_cons_of_mem _ hw)) h
      · rw [hfind] at h
        rw [hall v (List.mem_cons_self _ _)] at h
        simp only [get_extension_dependencies, Except.ok.injEq, Prod.mk.injEq] at h
        exact h.2.2.symm
    · rw [Bool.not_eq_true] at hv
      simp only [get_download_info_versions, hv, Bool.false_eq_true, if_false] at h
      exact ih u ver deps (fun w hw => hall w (List.mem_cons_of_mem _ hw)) h

/-- C9: manifest absence or a manifest fetch failure is non-fatal for
resolving the extension's own package.  If `get_download_info` succeeds
under any manifest oracle, it also succeeds — with the same download URL
and version — when every manifest fetch fails, and then its dependency
list is empty; moreover whenever the actual run's manifest lookups all
come back `None` (no manifest asset, or every fetch failing), the
dependency list of the successful result is exactly the empty list. -/
theorem c9_manifest_failure_nonfatal (net : ManifestNet) (info : ExtensionInfo) (tp : String)
    (u : String) (ver : Option String) (deps : List String)
    (h : get_download_info net info tp = .ok (u, ver, deps)) :
    get_download_info (fun _ => none) info tp = .ok (u, ver, []) ∧
    ((∀ r ∈ info.results, ∀ mext ∈ r.extensions, ∀ v ∈ mext.versions,
        get_extension_manifest net v = none) → deps = []) := by
  rcases info with ⟨results⟩
  cases results with
  | nil => exact absurd h (by simp [get_download_info])
  | cons r rs =>
    rcases r with ⟨exts⟩
    cases exts with
    | nil => exact absurd h (by simp [get_download_info])
    | cons mext ms =>
      simp only [get_download_info, List.head?_cons] at h ⊢
      refine ⟨version_loop_net_irrelevant net tp mext.versions u ver deps h, ?_⟩
      intro hall
      exact version_loop_manifest_none net tp mext.versions u ver deps
        (fun v hv =>
          hall ⟨mext :: ms⟩ (List.mem_cons_self _ _) mext (List.mem_cons_self _ _) v hv) h

/-- Manifest oracle and response for the C9 witness: the manifest of
`x`'s matched version declares a dependency `d.e`. -/
def net9 : ManifestNet := fun url =>
  if url = "https://man/x" then some ⟨some ["d.e"]⟩ else none

def info9 : ExtensionInfo :=
  ⟨[⟨[⟨[⟨some "linux-x64", some "1.0.0",
         [manFile "https://man/x", pkgFile "https://pkg/x"]⟩]⟩]⟩]⟩

/-- Witness for `c9_manifest_failure_nonfatal`: the run that reads the
manifest yields dependencies `["d.e"]`; with every manifest fetch failing
the same extension still resolves, to the same URL and version, with no
dependencies. -/
theorem c9_manifest_failure_nonfatal_witness :
    get_download_info (fun _ => none) info9 "linux-x64" =
      .ok ("https://pkg/x", some "1.0.0", []) :=
  (c9_manifest_failure_nonfatal net9 info9 "linux-x64" "https://pkg/x" (some "1.0.0")
    ["d.e"] rfl).1
